import Mathlib

/-!
# Verification of the splittar repository against its specification

Shallow embedding of the two components the specification calls the core:

* the size-with-suffix parser (`getSize`, `isdigit`, `sizeMults` in
  src/main.go), and
* the chunker/writer loop (`SplitTar` and its configuration in
  src/splittar.go), together with models of its collaborators: a
  file-like byte source for `io.ReadCloser` and the `archive/tar`
  writer's per-entry bookkeeping.

Machine integers are modelled as `Int`/`Nat` with explicit wrapping where
Go overflow matters (`wrap64`).  All definitions are executable; loops
are totalised with a fuel argument that provably never runs out on the
reachable inputs (the run functions pass fuel bounds derived from the
source length).
-/

namespace Splittar

/-! ## Size parser (src/main.go: `isdigit`, `sizeMults`, `getSize`) -/

/-- Failure modes of `getSize` in src/main.go: `errEmptySize`, the
"invalid size multiplier" error carrying the offending suffix, and the
wrapped `strconv.ParseInt` failure ("invalid size"). -/
inductive SizeErr
  | emptySize
  | invalidMult (suffix : Char)
  | invalidSize
deriving DecidableEq

/-- src/main.go `isdigit`: `'0' <= b && b <= '9'` (byte comparison). -/
def isdigit (c : Char) : Bool := 48 ≤ c.toNat && c.toNat ≤ 57

/-- src/main.go `sizeMults`: the suffix-multiplier table, with the exact
literal products appearing in the source. -/
def sizeMults (c : Char) : Option Int :=
  match c with
  | 'b' => some 1
  | 'B' => some 1
  | 'k' => some 1000
  | 'K' => some 1024
  | 'm' => some (1000 * 1000)
  | 'M' => some (1024 * 1024)
  | 'g' => some (1000 * 1000 * 1000)
  | 'G' => some (1024 * 1024 * 1024)
  | 't' => some (1000 * 1000 * 1000 * 1000)
  | 'T' => some (1024 * 1024 * 1024 * 1024)
  | 'p' => some (1000 * 1000 * 1000 * 1000)
  | 'P' => some (1024 * 1024 * 1024 * 1024)
  | _ => none

/-- Value of a decimal digit string, most significant digit first. -/
def digitsVal (ds : List Char) : Nat := ds.foldl (fun a c => a * 10 + (c.toNat - 48)) 0

/-- Model of Go `strconv.ParseInt(v, 10, 64)`: an optional leading sign
followed by one or more decimal digits, the value required to fit in a
signed 64-bit integer.  `none` models a non-nil error (syntax or range). -/
def parseInt64 (s : List Char) : Option Int :=
  match s with
  | [] => none
  | c :: rest =>
    let neg : Bool := c = '-'
    let ds : List Char := if c = '-' ∨ c = '+' then rest else s
    if ds.isEmpty then none
    else if ds.all isdigit then
      let n : Int := (digitsVal ds : Nat)
      let v : Int := if neg then -n else n
      if v < -(2 ^ 63) ∨ 2 ^ 63 - 1 < v then none else some v
    else none

/-- Two's-complement wrap of an integer into the signed 64-bit range,
modelling Go's wrapping `int64` arithmetic. -/
def wrap64 (x : Int) : Int := (x + 2 ^ 63) % 2 ^ 64 - 2 ^ 63

/-- src/main.go `getSize`: inspect the last byte; a digit means
multiplier 1 and the whole string is numeric, otherwise the last byte is
stripped and looked up in `sizeMults`; the remainder is parsed with
`strconv.ParseInt` and the result is `size * mult` in `int64`
arithmetic. -/
def getSize (v : List Char) : Except SizeErr Int :=
  match v.getLast? with
  | none => .error .emptySize
  | some suffix =>
    if isdigit suffix then
      match parseInt64 v with
      | none => .error .invalidSize
      | some size => .ok (wrap64 (size * 1))
    else
      match sizeMults suffix with
      | none => .error (.invalidMult suffix)
      | some mult =>
        match parseInt64 v.dropLast with
        | none => .error .invalidSize
        | some size => .ok (wrap64 (size * mult))

/-- The numeric part of a size string as `getSize` delimits it: the whole
string when the last character is a digit, everything before the last
character otherwise. -/
def numericPart (v : List Char) : List Char :=
  match v.getLast? with
  | none => v
  | some c => if isdigit c then v else v.dropLast

/-- The multiplier `getSize` applies: 1 for a trailing digit, the table
entry for a known suffix, undefined otherwise. -/
def multiplierOf (v : List Char) : Option Int :=
  match v.getLast? with
  | none => none
  | some c => if isdigit c then some 1 else sizeMults c

theorem parser_sanity_examples :
    getSize ("1024".toList) = .ok 1024
    ∧ getSize ("1k".toList) = .ok 1000
    ∧ getSize ("1K".toList) = .ok 1024
    ∧ getSize ("2M".toList) = .ok 2097152
    ∧ getSize ("2m".toList) = .ok 2000000
    ∧ getSize ("".toList) = .error .emptySize
    ∧ getSize ("5x".toList) = .error (.invalidMult 'x') := by
  refine ⟨rfl, rfl, rfl, rfl, rfl, rfl, rfl⟩

/-- C3: evaluating the parser at the inputs where its suffix table
deviates from the documented multipliers.  The source maps the suffix
`p` to `1000 * 1000 * 1000 * 1000` (the tera value, 1000⁴) and `P` to
`1024 * 1024 * 1024 * 1024` (1024⁴), not the petabyte multipliers 1000⁵
and 1024⁵ the claim states. -/
theorem C3_suffix_table_eval :
    getSize ("1p".toList) = .ok 1000000000000
    ∧ getSize ("1P".toList) = .ok 1099511627776
    ∧ (1000000000000 : Int) ≠ 1000000000000000
    ∧ (1099511627776 : Int) ≠ 1125899906842624 :=
  ⟨rfl, rfl, by decide, by decide⟩

/-- C4: exact characterisation of the parser's failure modes.
`EmptyInput` exactly on the empty string; `UnknownSuffix` exactly when
the last character is neither a decimal digit nor a key of the suffix
table; `InvalidNumber` exactly when the remaining numeric part does not
parse as a base-10 64-bit integer; otherwise the parse succeeds. -/
theorem C4_parser_failure_conditions (v : List Char) :
    (getSize v = .error .emptySize ↔ v = [])
    ∧ ((∃ ch, getSize v = .error (.invalidMult ch)) ↔
        (∃ ch, v.getLast? = some ch ∧ isdigit ch = false ∧ sizeMults ch = none))
    ∧ ((getSize v = .error .invalidSize) ↔
        (∃ ch, v.getLast? = some ch ∧ (isdigit ch = true ∨ (sizeMults ch).isSome = true)
          ∧ parseInt64 (numericPart v) = none))
    ∧ ((∃ z, getSize v = .ok z) ↔
        (∃ ch, v.getLast? = some ch ∧ (isdigit ch = true ∨ (sizeMults ch).isSome = true)
          ∧ (parseInt64 (numericPart v)).isSome = true)) := by
  rcases hv : v.getLast? with _ | ch
  · have hnil : v = [] := by simpa using hv
    subst hnil
    simp [getSize]
  · have hvne : v ≠ [] := by rintro rfl; simp at hv
    by_cases hd : isdigit ch
    · rcases hp : parseInt64 v with _ | z <;>
        simp [getSize, numericPart, hv, hd, hp, hvne]
    · rcases hm : sizeMults ch with _ | mult
      · simp [getSize, numericPart, hv, hd, hm, hvne]
      · rcases hp : parseInt64 v.dropLast with _ | z <;>
          simp [getSize, numericPart, hv, hd, hm, hp, hvne]

/-- C5 counterexample: parsing the string "0" does not fail — `getSize`
returns the size 0 with a nil error, so no configuration error is raised
on this path. -/
theorem C5_zero_parses_without_error : getSize ("0".toList) = .ok 0 := rfl

/-- C9 counterexample: a product that does not fit in `int64` is not
rejected; the parser succeeds with the wrapped value `-1000`, which
differs from the exact mathematical product. -/
theorem C9_overflow_wraps_silently :
    getSize ("9223372036854775807k".toList) = .ok (-1000)
    ∧ ((-1000 : Int) ≠ 9223372036854775807 * 1000) :=
  ⟨rfl, by decide⟩

/-- C9 amended: the parser performs no overflow check at the
multiplication step; every successful parse returns exactly the
two's-complement 64-bit wrap of the product of the numeric part and the
multiplier (so an unrepresentable product wraps rather than failing). -/
theorem C9_success_wraps_product (v : List Char) (z : Int)
    (h : getSize v = .ok z) :
    z = wrap64 ((parseInt64 (numericPart v)).getD 0 * (multiplierOf v).getD 0) := by
  rcases hv : v.getLast? with _ | ch
  · simp [getSize, hv] at h
  · by_cases hd : isdigit ch
    · rcases hp : parseInt64 v with _ | n
      · simp [getSize, hv, hd, hp] at h
      · simp [getSize, hv, hd, hp] at h
        simp [numericPart, multiplierOf, hv, hd, hp, ← h]
    · rcases hm : sizeMults ch with _ | mult
      · simp [getSize, hv, hd, hm] at h
      · rcases hp : parseInt64 v.dropLast with _ | n
        · simp [getSize, hv, hd, hm, hp] at h
        · simp [getSize, hv, hd, hm, hp] at h
          simp [numericPart, multiplierOf, hv, hd, hm, hp, ← h]

/-- Witness for C9's amended theorem at the overflowing input. -/
theorem C9_success_wraps_product_witness :
    (-1000 : Int) =
      wrap64 ((parseInt64 (numericPart ("9223372036854775807k".toList))).getD 0
        * (multiplierOf ("9223372036854775807k".toList)).getD 0) :=
  C9_success_wraps_product ("9223372036854775807k".toList) (-1000) rfl

/-! ## Core data model (src/splittar.go)

The source handle models the `io.ReadCloser` the front ends actually
pass (an `os.File` or standard input): a read delivers up to the
requested number of bytes from the remaining stream and reports
end-of-stream as a separate zero-byte `io.EOF` read once the stream is
exhausted.  `failAfterData` injects a non-EOF read error at that point
instead, for the mid-read-failure behaviour.  `closeFails` injects a
close-time error.  Counters record how often the handle was read and
closed. -/

/-- Error values flowing through the run, mirroring the error contexts
built in src/splittar.go (`errors.ErrorfWithCause` wrappings) and the
sentinel errors of the collaborators (`io.EOF`, `tar.ErrWriteTooLong`,
the tar writer's missed-bytes flush error). -/
inductive Err
  | eof
  | srcFail
  | blockSizeNonPositive
  | writeTooLong
  | writeNoHeader
  | missedBytes
  | tgtCloseFail
  | srcCloseFail
  | fuelOut
  | sourceRead (cause : Err)
  | headerWrite (cause : Err)
  | chunkWrite (cause : Err)
  | composed (e1 e2 : Err)
deriving DecidableEq

/-- A file-like byte source (the `io.ReadCloser` of the run). -/
structure Src where
  data : List Nat
  failAfterData : Bool
  closeFails : Bool
  readCount : Nat
  closeCount : Nat
deriving DecidableEq

/-- One `Read(p)` call on the source with capacity `cap = len(p)`:
delivers up to `cap` bytes of the remaining stream, or reports `io.EOF`
(or the injected failure) once the stream is exhausted. -/
def srcRead (s : Src) (cap : Nat) : List Nat × Option Err × Src :=
  match s.data with
  | [] =>
    ([], some (if s.failAfterData then .srcFail else .eof),
     { s with readCount := s.readCount + 1 })
  | x :: xs =>
    ((x :: xs).take cap, none,
     { s with data := (x :: xs).drop cap, readCount := s.readCount + 1 })

/-- `Close()` on the source handle. -/
def srcClose (s : Src) : Option Err × Src :=
  ((if s.closeFails then some .srcCloseFail else none),
   { s with closeCount := s.closeCount + 1 })

/-- `archive/tar` header fields used by `createTarHeader` in
src/splittar.go. -/
structure Header where
  typeflag : Nat
  name : String
  linkname : String
  size : Int
  mode : Nat
  uid : Int
  gid : Int
  uname : String
  gname : String
  modTime : Nat
  accessTime : Nat
  changeTime : Nat
  devmajor : Int
  devminor : Int
  xattrs : List (String × String)
  paxRecords : List (String × String)
  format : Nat
deriving DecidableEq, Inhabited

/-- `tar.TypeReg` is the byte '0'. -/
def tarTypeReg : Nat := 48

/-- `tar.FormatPAX`. -/
def formatPAX : Nat := 4

/-- One archive entry as serialized: its header and its body bytes. -/
structure Entry where
  header : Header
  body : List Nat
deriving DecidableEq, Inhabited

/-- Model of `tar.Writer`: the entries already fully flushed, the entry
currently open (header, body bytes accepted so far, body bytes still
owed per the header's size field), an injected close-time failure of the
underlying writer, and a close counter. -/
structure TarW where
  done : List Entry
  cur : Option (Header × List Nat × Nat)
  closeFails : Bool
  closeCount : Nat
deriving DecidableEq

/-- A freshly created `tar.Writer` over an untouched target. -/
def freshTarW (closeFails : Bool) : TarW :=
  { done := [], cur := none, closeFails := closeFails, closeCount := 0 }

/-- The entries the archive will contain if the writer is finalized now:
the flushed entries plus the currently open one. -/
def twView (t : TarW) : List Entry :=
  t.done ++ (match t.cur with
    | none => []
    | some (h, acc, _) => [{ header := h, body := acc }])

/-- `tar.Writer.WriteHeader`: flushing first errors if the previous
entry was not fully written; otherwise the previous entry is finalized
and a new one is opened owing `size` body bytes. -/
def tarWriteHeader (t : TarW) (h : Header) : Option Err × TarW :=
  match t.cur with
  | some (h0, acc, nb) =>
    if nb ≠ 0 then (some .missedBytes, t)
    else (none, { t with done := t.done ++ [{ header := h0, body := acc }],
                         cur := some (h, [], h.size.toNat) })
  | none => (none, { t with cur := some (h, [], h.size.toNat) })

/-- `tar.Writer.Write`: accepts at most the owed byte count; writing
more than the current entry owes accepts the owed remainder and reports
`tar.ErrWriteTooLong`.  Returns the reported byte count, the error, and
the new writer state. -/
def tarWrite (t : TarW) (bs : List Nat) : Nat × Option Err × TarW :=
  match t.cur with
  | none => (0, some .writeNoHeader, t)
  | some (h, acc, nb) =>
    let k := min bs.length nb
    ((k), (if nb < bs.length then some .writeTooLong else none),
     { t with cur := some (h, acc ++ bs.take k, nb - k) })

/-- `tar.Writer.Close`: flush the open entry (erroring if it was not
fully written), then write the archive footer to the underlying writer,
whose injected failure surfaces as the close error. -/
def tarClose (t : TarW) : Option Err × TarW :=
  match t.cur with
  | some (h, acc, nb) =>
    if nb ≠ 0 then (some .missedBytes, { t with closeCount := t.closeCount + 1 })
    else ((if t.closeFails then some .tgtCloseFail else none),
          { t with done := t.done ++ [{ header := h, body := acc }],
                   cur := none, closeCount := t.closeCount + 1 })
  | none => ((if t.closeFails then some .tgtCloseFail else none),
             { t with cur := none, closeCount := t.closeCount + 1 })

/-- Modelled from the spec: `errors.WrapDeferred` of the external
github.com/skillian/errors package is not part of this repository.  Per
the spec's `CloseError` policy, a close-time failure is reported rather
than dropped, and when both the run body and the close fail the two
errors are composed. -/
def wrapDeferred (err : Option Err) (closeErr : Option Err) : Option Err :=
  match closeErr with
  | none => err
  | some ce =>
    match err with
    | none => some ce
    | some e => some (.composed e ce)

/-- The identity and timestamp environment `createTarHeader` resolves
(current user, primary group, current instant), after any sentinel
fallback. -/
structure Env where
  uid : Int
  gid : Int
  uname : String
  gname : String
  time : Nat
deriving DecidableEq

/-- src/splittar.go `createTarHeader`: the per-run header template.
Name and size are placeholders overwritten per chunk; every other field
is fixed for the run. -/
def createTarHeader (e : Env) : Header :=
  { typeflag := tarTypeReg
    name := ""
    linkname := ""
    size := 0
    mode := 292
    uid := e.uid
    gid := e.gid
    uname := e.uname
    gname := e.gname
    modTime := e.time
    accessTime := e.time
    changeTime := e.time
    devmajor := 0
    devminor := 0
    xattrs := []
    paxRecords := []
    format := formatPAX }

/-- `fmt.Sprintf("%08d", i)`: zero-padded decimal of minimum width 8. -/
def fmt08d (i : Nat) : String :=
  let s := Nat.repr i
  if s.length < 8 then String.mk (List.replicate (8 - s.length) '0') ++ s else s

/-- Copy `d` into the buffer starting at offset `off` (the semantics of
reading into the slice `b[off:]`). -/
def listWrite (buf : List Nat) (off : Nat) (d : List Nat) : List Nat :=
  buf.take off ++ d ++ buf.drop (off + d.length)

/-- The inner read loop of `SplitTar`
(`for read = 0; read < len(b); read += n`): read into `b[read:]` until
the buffer is full; `io.EOF` breaks out, any other read error aborts.
`fuel` totalises the loop; the callers pass enough for it never to run
out. -/
def readLoop (c : Nat) : Nat → Nat → List Nat → Src →
    Except (Err × Src) (Nat × List Nat × Src)
  | 0, _, _, s => .error (.fuelOut, s)
  | fuel + 1, read, buf, s =>
    if read < c then
      match srcRead s (c - read) with
      | (_, some .eof, s1) => .ok (read, buf, s1)
      | (_, some e, s1) => .error (e, s1)
      | (d, none, s1) => readLoop c fuel (read + d.length) (listWrite buf read d) s1
    else .ok (read, buf, s)

/-- The inner write loop of `SplitTar`
(`for written := 0; written < read; written += n`): note that it passes
`b[written:]` — the buffer tail, not just the chunk — to the tar
writer, exactly as the source does. -/
def writeLoop (read : Nat) : Nat → Nat → List Nat → TarW →
    Except (Err × TarW) TarW
  | 0, _, _, t => .error (.fuelOut, t)
  | fuel + 1, written, buf, t =>
    if written < read then
      match tarWrite t (buf.drop written) with
      | (_, some e, t1) => .error (e, t1)
      | (n, none, t1) => writeLoop read fuel (written + n) buf t1
    else .ok t

/-- The outer loop of `SplitTar`: fill a chunk, stop cleanly when a fill
yields zero bytes, otherwise set the template's name (`%08d` of the
chunk index) and size, write the header, write the body, repeat. -/
def splitLoop (env : Env) (c : Nat) : Nat → Nat → List Nat → Src → TarW →
    Option Err × TarW × Src
  | 0, _, _, s, t => (some .fuelOut, t, s)
  | fuel + 1, i, buf, s, t =>
    match readLoop c (s.data.length + 2) 0 buf s with
    | .error (e, s1) => (some (.sourceRead e), t, s1)
    | .ok (read, buf1, s1) =>
      if read = 0 then (none, t, s1)
      else
        let h := { createTarHeader env with size := (read : Int), name := fmt08d i }
        match tarWriteHeader t h with
        | (some e, t1) => (some (.headerWrite e), t1, s1)
        | (none, t1) =>
          match writeLoop read (read + 1) 0 buf1 t1 with
          | .error (e, t2) => (some (.chunkWrite e), t2, s1)
          | .ok t2 => splitLoop env c fuel (i + 1) buf1 s1 t2

/-- src/splittar.go `Config`: block size, source and target of a run. -/
structure Config where
  block : Int
  source : Src
  target : TarW

/-- src/splittar.go `SplitTar`: allocate the block-sized buffer, build
the header template once, run the loop, and on every exit path run the
two deferred closes — target first, then source (LIFO order of the
`defer`s) — composing close errors into the returned error via
`errors.WrapDeferred`. -/
def SplitTar (cfg : Config) (env : Env) : Option Err × TarW × Src :=
  let c := cfg.block.toNat
  let b := List.replicate c 0
  let r := splitLoop env c (cfg.source.data.length + 1) 0 b cfg.source cfg.target
  let tc := tarClose r.2.1
  let e1 := wrapDeferred r.1 tc.1
  let sc := srcClose r.2.2
  (wrapDeferred e1 sc.1, tc.2, sc.2)

/-- src/splittar.go option functions (`Option func(c *Config) error`). -/
def BlockSize (size : Int) : Config → Except Err Config := fun c =>
  if size ≤ 0 then .error .blockSizeNonPositive else .ok { c with block := size }

/-- src/splittar.go `Source`: sets the source handle. -/
def Source (r : Src) : Config → Except Err Config := fun c =>
  .ok { c with source := r }

/-- src/splittar.go `TargetWriter`: wraps the target in a fresh
`tar.Writer`. -/
def TargetWriter (t : TarW) : Config → Except Err Config := fun c =>
  .ok { c with target := t }

/-- The zero-valued `Config` that `NewConfig` starts from. -/
def initialConfig : Config :=
  { block := 0
    source := { data := [], failAfterData := false, closeFails := false,
                readCount := 0, closeCount := 0 }
    target := freshTarW false }

/-- src/splittar.go `NewConfig`: apply the options in order, stopping at
the first error. -/
def NewConfig (opts : List (Config → Except Err Config)) : Except Err Config :=
  opts.foldlM (fun c o => o c) initialConfig

/-- The `splitTar` flow of the command-line front end built on the
library (cmd source file): build the configuration with `BlockSize`,
`Source` and `TargetWriter`; a configuration error is returned before
`SplitTar` ever runs, leaving both handles untouched. -/
def splitTarCLI (block : Int) (src : Src) (tgtCloseFails : Bool) (env : Env) :
    Option Err × TarW × Src :=
  match NewConfig [BlockSize block, Source src, TargetWriter (freshTarW tgtCloseFails)] with
  | .error e => (some e, freshTarW tgtCloseFails, src)
  | .ok cfg => SplitTar cfg env

/-- A run over a clean source (no injected failures), as the front ends
produce it for an `n`-byte file with block size `c`. -/
def runClean (c : Nat) (env : Env) (data : List Nat) : Option Err × TarW × Src :=
  SplitTar
    { block := (c : Int)
      source := { data := data, failAfterData := false, closeFails := false,
                  readCount := 0, closeCount := 0 }
      target := freshTarW false }
    env

/-- A run whose source fails (with a non-EOF error) once its `data` is
exhausted. -/
def runSrcFail (c : Nat) (env : Env) (data : List Nat) : Option Err × TarW × Src :=
  SplitTar
    { block := (c : Int)
      source := { data := data, failAfterData := true, closeFails := false,
                  readCount := 0, closeCount := 0 }
      target := freshTarW false }
    env

/-! ## Specification-level chunk decomposition

`specEntries env c f i data` is the list of archive entries a run over
`data` with block size `c` produces from chunk index `i` on: every
`c`-byte chunk in order, a shorter final chunk when the length is not a
multiple of `c`, and — when the source fails after its data (`f`) — no
entry for the partial chunk that was being filled when the failure hit. -/

/-- Fueled form of the chunk decomposition (fuel beyond the data length
is irrelevant). -/
def specEntriesF (env : Env) (c : Nat) (f : Bool) : Nat → Nat → List Nat → List Entry
  | 0, _, _ => []
  | fuel + 1, i, data =>
    if data.isEmpty then []
    else if f ∧ data.length < c then []
    else { header := { createTarHeader env with
                         name := fmt08d i, size := ((min c data.length : Nat) : Int) },
           body := data.take c }
        :: specEntriesF env c f fuel (i + 1) (data.drop c)

/-- The chunk decomposition of a run's source. -/
def specEntries (env : Env) (c : Nat) (f : Bool) (i : Nat) (data : List Nat) : List Entry :=
  specEntriesF env c f (data.length + 1) i data

/-- The error a run's loop body returns: the wrapped source failure when
one is injected; otherwise clean iff the data length is a multiple of
the block size (the short final chunk trips the tar writer's
write-too-long error because the loop hands it the whole buffer tail). -/
def errSpec (f : Bool) (c n : Nat) : Option Err :=
  if f then some (.sourceRead .srcFail)
  else if n % c = 0 then none
  else some (.chunkWrite .writeTooLong)

/-- Body bytes the current entry still owes (0 when no entry is open). -/
def curOwes (t : TarW) : Nat :=
  match t.cur with
  | none => 0
  | some (_, _, nb) => nb

/-! ### One-step unfolding equations for the fueled functions -/

theorem specEntriesF_succ (env : Env) (c : Nat) (f : Bool) (fuel i : Nat)
    (data : List Nat) :
    specEntriesF env c f (fuel + 1) i data =
      if data.isEmpty then []
      else if f ∧ data.length < c then []
      else { header := { createTarHeader env with
                           name := fmt08d i, size := ((min c data.length : Nat) : Int) },
             body := data.take c }
          :: specEntriesF env c f fuel (i + 1) (data.drop c) := rfl

theorem readLoop_succ (c fuel read : Nat) (buf : List Nat) (s : Src) :
    readLoop c (fuel + 1) read buf s =
      (if read < c then
        match srcRead s (c - read) with
        | (_, some .eof, s1) => .ok (read, buf, s1)
        | (_, some e, s1) => .error (e, s1)
        | (d, none, s1) => readLoop c fuel (read + d.length) (listWrite buf read d) s1
      else .ok (read, buf, s)) := rfl

theorem writeLoop_succ (read fuel written : Nat) (buf : List Nat) (t : TarW) :
    writeLoop read (fuel + 1) written buf t =
      (if written < read then
        match tarWrite t (buf.drop written) with
        | (_, some e, t1) => .error (e, t1)
        | (n, none, t1) => writeLoop read fuel (written + n) buf t1
      else .ok t) := rfl

theorem splitLoop_succ (env : Env) (c fuel i : Nat) (buf : List Nat) (s : Src)
    (t : TarW) :
    splitLoop env c (fuel + 1) i buf s t =
      (match readLoop c (s.data.length + 2) 0 buf s with
      | .error (e, s1) => (some (.sourceRead e), t, s1)
      | .ok (read, buf1, s1) =>
        if read = 0 then (none, t, s1)
        else
          let h := { createTarHeader env with size := (read : Int), name := fmt08d i }
          match tarWriteHeader t h with
          | (some e, t1) => (some (.headerWrite e), t1, s1)
          | (none, t1) =>
            match writeLoop read (read + 1) 0 buf1 t1 with
            | .error (e, t2) => (some (.chunkWrite e), t2, s1)
            | .ok t2 => splitLoop env c fuel (i + 1) buf1 s1 t2) := rfl

/-! ### Chunk-decomposition lemmas -/

theorem specEntriesF_congr (env : Env) (c : Nat) (f : Bool) (hc : 0 < c) :
    ∀ fuel1 fuel2 i (data : List Nat), data.length < fuel1 → data.length < fuel2 →
      specEntriesF env c f fuel1 i data = specEntriesF env c f fuel2 i data := by
  intro fuel1
  induction fuel1 with
  | zero => intro fuel2 i data h1; exact absurd h1 (Nat.not_lt_zero _)
  | succ fuel1 ih =>
    intro fuel2 i data h1 h2
    match fuel2, h2 with
    | fuel2 + 1, h2 =>
      rw [specEntriesF_succ, specEntriesF_succ]
      rcases data with _ | ⟨x, xs⟩
      · rfl
      · have hlen1 : ((x :: xs).drop c).length < fuel1 := by
          rw [List.length_drop]
          simp only [List.length_cons] at h1 ⊢
          omega
        have hlen2 : ((x :: xs).drop c).length < fuel2 := by
          rw [List.length_drop]
          simp only [List.length_cons] at h2 ⊢
          omega
        rw [ih fuel2 (i + 1) ((x :: xs).drop c) hlen1 hlen2]

theorem specEntries_nil (env : Env) (c : Nat) (f : Bool) (i : Nat) :
    specEntries env c f i [] = [] := rfl

/-- Unfolding step of the chunk decomposition on nonempty data, when no
failure truncates it. -/
theorem specEntries_cons (env : Env) (c : Nat) (f : Bool) (hc : 0 < c)
    (i : Nat) (data : List Nat) (hne : data ≠ [])
    (hf : ¬(f = true ∧ data.length < c)) :
    specEntries env c f i data =
      { header := { createTarHeader env with
                      name := fmt08d i, size := ((min c data.length : Nat) : Int) },
        body := data.take c } :: specEntries env c f (i + 1) (data.drop c) := by
  rw [specEntries, specEntriesF_succ]
  rw [if_neg (by simpa using hne), if_neg (by simpa using hf)]
  have hlen : (data.drop c).length < data.length := by
    rw [List.length_drop]
    have : data.length ≠ 0 := fun h => hne (List.length_eq_zero.mp h)
    omega
  rw [specEntriesF_congr env c f hc data.length ((data.drop c).length + 1) (i + 1)
    (data.drop c) hlen (Nat.lt_succ_self _)]
  rfl

/-- Truncation step: an injected failure with a partial chunk pending
produces no entry. -/
theorem specEntries_fail_short (env : Env) (c : Nat) (i : Nat) (data : List Nat)
    (h : data.length < c) :
    specEntries env c true i data = [] := by
  rw [specEntries, specEntriesF_succ]
  rcases data with _ | ⟨x, xs⟩
  · rfl
  · rw [if_neg (by simp), if_pos ⟨rfl, h⟩]

theorem listWrite_zero (buf d : List Nat) : listWrite buf 0 d = d ++ buf.drop d.length := by
  simp [listWrite]

/-! ### Read-loop characterisation (for the call pattern of `splitLoop`) -/

/-- `readLoop` on an exhausted source: the `Read` call reports `io.EOF`
(or the injected failure, which aborts). -/
theorem readLoop_nil (c fuel read : Nat) (buf : List Nat) (s : Src)
    (hr : read < c) (hs : s.data = []) :
    readLoop c (fuel + 1) read buf s =
      (if s.failAfterData then
        .error (.srcFail, { s with readCount := s.readCount + 1 })
      else
        .ok (read, buf, { s with readCount := s.readCount + 1 })) := by
  obtain ⟨data, sf, scl, rc, cc⟩ := s
  simp only at hs
  subst hs
  rw [readLoop_succ, if_pos hr]
  cases sf <;> rfl

/-- `readLoop` from an empty buffer when at least one full block is
available: a single read fills the buffer. -/
theorem readLoop_full (c : Nat) (hc : 0 < c) (buf : List Nat) (s : Src)
    (hb : buf.length = c) (hlen : c ≤ s.data.length) :
    readLoop c (s.data.length + 2) 0 buf s =
      .ok (c, s.data.take c,
           { s with data := s.data.drop c, readCount := s.readCount + 1 }) := by
  obtain ⟨data, sf, scl, rc, cc⟩ := s
  simp only at hlen ⊢
  rcases data with _ | ⟨x, xs⟩
  · simp only [List.length_nil] at hlen; omega
  · have h2 : (x :: xs).length + 2 = ((x :: xs).length + 1) + 1 := rfl
    rw [h2, readLoop_succ, if_pos hc]
    have hsrc : srcRead ⟨x :: xs, sf, scl, rc, cc⟩ (c - 0) =
        ((x :: xs).take c, none, ⟨(x :: xs).drop c, sf, scl, rc + 1, cc⟩) := by
      simp [srcRead]
    rw [hsrc]
    dsimp only
    have htl : ((x :: xs).take c).length = c := by
      rw [List.length_take]
      omega
    have hbw : listWrite buf 0 ((x :: xs).take c) = (x :: xs).take c := by
      rw [listWrite_zero, htl, ← hb, List.drop_length, List.append_nil]
    rw [hbw, htl, Nat.zero_add]
    rw [readLoop_succ, if_neg (by omega)]

/-- `readLoop` from an empty buffer when the remaining data is nonempty
but shorter than a block: the data is delivered whole, and the next read
reports `io.EOF` (or the injected failure, which aborts before the
partial chunk is ever flushed). -/
theorem readLoop_short (c : Nat) (buf : List Nat) (s : Src)
    (hne : s.data ≠ []) (hlen : s.data.length < c) :
    readLoop c (s.data.length + 2) 0 buf s =
      (if s.failAfterData then
        .error (.srcFail, { s with data := [], readCount := s.readCount + 2 })
      else
        .ok (s.data.length, s.data ++ buf.drop s.data.length,
             { s with data := [], readCount := s.readCount + 2 })) := by
  obtain ⟨data, sf, scl, rc, cc⟩ := s
  simp only at hne hlen ⊢
  rcases data with _ | ⟨x, xs⟩
  · exact absurd rfl hne
  · have h2 : (x :: xs).length + 2 = ((x :: xs).length + 1) + 1 := rfl
    rw [h2, readLoop_succ, if_pos (by omega : (0 : Nat) < c)]
    have hsrc : srcRead ⟨x :: xs, sf, scl, rc, cc⟩ (c - 0) =
        ((x :: xs).take c, none, ⟨(x :: xs).drop c, sf, scl, rc + 1, cc⟩) := by
      simp [srcRead]
    rw [hsrc]
    have htake : (x :: xs).take c = x :: xs := List.take_of_length_le (by omega)
    have hdropc : (x :: xs).drop c = [] := List.drop_eq_nil_of_le (by omega)
    rw [htake, hdropc]
    dsimp only
    rw [listWrite_zero]
    rw [readLoop_succ, if_pos (by omega : 0 + (x :: xs).length < c)]
    have hsrc2 : srcRead ⟨[], sf, scl, rc + 1, cc⟩ (c - (0 + (x :: xs).length)) =
        ([], some (if sf then .srcFail else .eof), ⟨[], sf, scl, rc + 2, cc⟩) := by
      simp [srcRead]
    rw [hsrc2]
    cases sf <;> simp

/-! ### Tar-writer and write-loop characterisation -/

/-- `WriteHeader` on a writer whose open entry (if any) is complete:
the open entry is finalized and a new one is opened. -/
theorem tarWriteHeader_complete (t : TarW) (h : Header) (ht : curOwes t = 0) :
    tarWriteHeader t h =
      (none, { t with done := twView t, cur := some (h, [], h.size.toNat) }) := by
  rcases hcur : t.cur with _ | ⟨⟨h0, acc, nb⟩⟩
  · simp [tarWriteHeader, twView, hcur]
  · have hnb : nb = 0 := by simpa [curOwes, hcur] using ht
    subst hnb
    simp [tarWriteHeader, twView, hcur]

/-- The write loop when the chunk fills the whole buffer: the single
`Write` call is accepted in full. -/
theorem writeLoop_full (read : Nat) (hr : 0 < read) (buf : List Nat)
    (hb : buf.length = read) (t : TarW) (h : Header) (acc0 : List Nat)
    (ht : t.cur = some (h, acc0, read)) :
    writeLoop read (read + 1) 0 buf t =
      .ok { t with cur := some (h, acc0 ++ buf, 0) } := by
  rw [writeLoop_succ, if_pos hr]
  have hw : tarWrite t (buf.drop 0) =
      (read, none, { t with cur := some (h, acc0 ++ buf, 0) }) := by
    rw [List.drop_zero]
    simp only [tarWrite, ht]
    rw [hb]
    simp [List.take_of_length_le (le_of_eq hb)]
  rw [hw]
  dsimp only
  match hfu : read, hr with
  | read + 1, _ =>
    rw [writeLoop_succ, if_neg (by omega)]

/-- The write loop for a short final chunk: the loop passes the whole
buffer tail, the tar writer accepts exactly the owed bytes and reports
`ErrWriteTooLong`, and the loop aborts. -/
theorem writeLoop_short (read : Nat) (hr : 0 < read) (buf : List Nat)
    (hb : read < buf.length) (t : TarW) (h : Header) (acc0 : List Nat)
    (ht : t.cur = some (h, acc0, read)) :
    writeLoop read (read + 1) 0 buf t =
      .error (.writeTooLong, { t with cur := some (h, acc0 ++ buf.take read, 0) }) := by
  rw [writeLoop_succ, if_pos hr]
  have hw : tarWrite t (buf.drop 0) =
      (read, some .writeTooLong,
       { t with cur := some (h, acc0 ++ buf.take read, 0) }) := by
    rw [List.drop_zero]
    simp only [tarWrite, ht]
    rw [min_eq_right (le_of_lt hb), if_pos hb]
    simp
  rw [hw]

/-- `Close` on a writer whose open entry (if any) is complete: the open
entry is finalized into the archive and the underlying close error (if
injected) is reported. -/
theorem tarClose_complete (t : TarW) (ht : curOwes t = 0) :
    tarClose t =
      ((if t.closeFails then some .tgtCloseFail else none),
       { t with done := twView t, cur := none, closeCount := t.closeCount + 1 }) := by
  rcases hcur : t.cur with _ | ⟨⟨h0, acc, nb⟩⟩
  · simp [tarClose, twView, hcur]
  · have hnb : nb = 0 := by simpa [curOwes, hcur] using ht
    subst hnb
    simp [tarClose, twView, hcur]

/-- `readLoop` at the start of a chunk over an exhausted source, with the
fuel expression `splitLoop` passes. -/
theorem readLoop_start_nil (c : Nat) (hc : 0 < c) (buf : List Nat) (s : Src)
    (hs : s.data = []) :
    readLoop c (s.data.length + 2) 0 buf s =
      (if s.failAfterData then
        .error (.srcFail, { s with readCount := s.readCount + 1 })
      else
        .ok (0, buf, { s with readCount := s.readCount + 1 })) := by
  have h2 : s.data.length + 2 = (s.data.length + 1) + 1 := rfl
  rw [h2]
  exact readLoop_nil c (s.data.length + 1) 0 buf s hc hs

theorem errSpec_sub (f : Bool) (c n : Nat) (h : c ≤ n) :
    errSpec f c (n - c) = errSpec f c n := by
  cases f
  · simp only [errSpec, Bool.false_eq_true, if_false]
    rw [Nat.mod_eq_sub_mod h]
  · rfl

/-! ### The master run lemma -/

/-- What one run of the outer loop does, relative to the starting
states: the returned error is `errSpec`, the archive view grows by
exactly the chunk decomposition of the remaining data, the open entry
stays complete, and neither handle is closed by the loop itself. -/
abbrev loopPost (env : Env) (c i : Nat) (s : Src) (t : TarW)
    (r : Option Err × TarW × Src) : Prop :=
  r.1 = errSpec s.failAfterData c s.data.length
  ∧ twView r.2.1 = twView t ++ specEntries env c s.failAfterData i s.data
  ∧ curOwes r.2.1 = 0
  ∧ r.2.1.closeFails = t.closeFails
  ∧ r.2.1.closeCount = t.closeCount
  ∧ r.2.2.closeFails = s.closeFails
  ∧ r.2.2.closeCount = s.closeCount
  ∧ r.2.2.failAfterData = s.failAfterData

theorem splitLoop_master (env : Env) (c : Nat) (hc : 0 < c) :
    ∀ fuel i (buf : List Nat) (s : Src) (t : TarW),
      s.data.length < fuel → buf.length = c → curOwes t = 0 →
      loopPost env c i s t (splitLoop env c fuel i buf s t) := by
  intro fuel
  induction fuel with
  | zero => intro i buf s t hf _ _; exact absurd hf (Nat.not_lt_zero _)
  | succ fuel ih =>
    intro i buf s t hf hb ht
    obtain ⟨data, sf, scl, rc, cc⟩ := s
    rcases data with _ | ⟨x, xs⟩
    · -- exhausted source: clean stop, or abort on the injected failure
      rw [splitLoop_succ,
        readLoop_start_nil c hc buf ⟨[], sf, scl, rc, cc⟩ rfl]
      cases sf
      · show loopPost env c i ⟨[], false, scl, rc, cc⟩ t
          (none, t, ⟨[], false, scl, rc + 1, cc⟩)
        exact ⟨by simp [errSpec], by rw [specEntries_nil, List.append_nil],
          ht, rfl, rfl, rfl, rfl, rfl⟩
      · show loopPost env c i ⟨[], true, scl, rc, cc⟩ t
          (some (.sourceRead .srcFail), t, ⟨[], true, scl, rc + 1, cc⟩)
        exact ⟨rfl, by rw [specEntries_nil, List.append_nil],
          ht, rfl, rfl, rfl, rfl, rfl⟩
    · by_cases hcl : c ≤ (x :: xs).length
      · -- a full block is available: one complete chunk, then recurse
        rw [splitLoop_succ,
          readLoop_full c hc buf ⟨x :: xs, sf, scl, rc, cc⟩ hb hcl]
        dsimp only
        rw [if_neg (by omega : ¬(c = 0))]
        rw [tarWriteHeader_complete t _ ht]
        dsimp only
        have htl : ((x :: xs).take c).length = c := by
          rw [List.length_take]; omega
        have hIntNat : ((c : Int)).toNat = c := Int.toNat_natCast c
        rw [hIntNat]
        rw [writeLoop_full c hc ((x :: xs).take c) htl _ _ [] rfl]
        dsimp only
        rw [List.nil_append]
        have hf1 : (Src.mk ((x :: xs).drop c) sf scl (rc + 1) cc).data.length < fuel := by
          have := List.length_drop c (x :: xs)
          simp only [List.length_cons] at *
          omega
        have ihr := ih (i + 1) ((x :: xs).take c)
          ⟨(x :: xs).drop c, sf, scl, rc + 1, cc⟩
          ⟨twView t, some ({ createTarHeader env with
              size := ((c : Nat) : Int), name := fmt08d i }, (x :: xs).take c, 0),
            t.closeFails, t.closeCount⟩
          hf1 htl rfl
        obtain ⟨e1, e2, e3, e4, e5, e6, e7, e8⟩ := ihr
        refine ⟨?_, ?_, e3, e4, e5, e6, e7, e8⟩
        · rw [e1]
          show errSpec sf c ((x :: xs).drop c).length = errSpec sf c (x :: xs).length
          rw [List.length_drop]
          exact errSpec_sub sf c (x :: xs).length hcl
        · rw [e2]
          show twView t ++
              [{ header := { createTarHeader env with
                    size := ((c : Nat) : Int), name := fmt08d i },
                 body := (x :: xs).take c }] ++
              specEntries env c sf (i + 1) ((x :: xs).drop c)
            = twView t ++ specEntries env c sf i (x :: xs)
          rw [specEntries_cons env c sf hc i (x :: xs) (by simp)
            (by rintro ⟨_, hlt⟩; omega)]
          rw [min_eq_left hcl]
          simp [List.append_assoc]
      · -- only a partial block remains: fail before flushing, or flush
        -- the short chunk and trip the write-too-long abort
        have hlt : (x :: xs).length < c := by omega
        rw [splitLoop_succ,
          readLoop_short c buf ⟨x :: xs, sf, scl, rc, cc⟩ (by simp) hlt]
        cases sf
        · rw [if_neg Bool.false_ne_true]
          dsimp only
          rw [if_neg (by simp : ¬((x :: xs).length = 0))]
          rw [tarWriteHeader_complete t _ ht]
          dsimp only
          have hIntNat : (((x :: xs).length : Int)).toNat = (x :: xs).length :=
            Int.toNat_natCast _
          rw [hIntNat]
          have hblen : (x :: xs).length < ((x :: xs) ++ buf.drop (x :: xs).length).length := by
            rw [List.length_append, List.length_drop]
            simp only [List.length_cons] at *
            omega
          rw [writeLoop_short (x :: xs).length (by simp)
            ((x :: xs) ++ buf.drop (x :: xs).length) hblen _ _ [] rfl]
          dsimp only
          rw [List.nil_append, List.take_left]
          have hmod : (xs.length + 1) % c ≠ 0 := by
            rw [Nat.mod_eq_of_lt (by simpa using hlt)]; omega
          refine ⟨by simp [errSpec, hmod], ?_, rfl, rfl, rfl, rfl, rfl, rfl⟩
          · show twView t ++
                [{ header := { createTarHeader env with
                      size := (((x :: xs).length : Nat) : Int), name := fmt08d i },
                   body := x :: xs }]
              = twView t ++ specEntries env c false i (x :: xs)
            rw [specEntries_cons env c false hc i (x :: xs) (by simp) (by simp)]
            rw [min_eq_right (le_of_lt hlt), List.take_of_length_le (le_of_lt hlt),
              List.drop_eq_nil_of_le (le_of_lt hlt), specEntries_nil]
        · show loopPost env c i ⟨x :: xs, true, scl, rc, cc⟩ t
            (some (.sourceRead .srcFail), t, ⟨[], true, scl, rc + 2, cc⟩)
          exact ⟨rfl, by rw [specEntries_fail_short env c i (x :: xs) hlt,
            List.append_nil], ht, rfl, rfl, rfl, rfl, rfl⟩

/-- With an (unvalidated) zero block size the buffer is empty, the very
first fill yields zero bytes, and the loop stops cleanly without touching
either handle. -/
theorem splitLoop_zero_block (env : Env) (fuel i : Nat) (buf : List Nat) (s : Src)
    (t : TarW) :
    splitLoop env 0 (fuel + 1) i buf s t = (none, t, s) := by
  rw [splitLoop_succ]
  have h2 : s.data.length + 2 = (s.data.length + 1) + 1 := rfl
  rw [h2, readLoop_succ, if_neg (by omega : ¬(0 < 0))]
  rfl

/-- End-to-end description of a `SplitTar` run with a positive block
size: the returned error composes the loop error and the two close
errors, the finalized archive is exactly the chunk decomposition of the
source, and both handles are closed exactly once. -/
theorem SplitTar_spec (c : Nat) (env : Env) (data : List Nat) (f scf tcf : Bool)
    (hc : 0 < c) :
    (SplitTar ⟨(c : Int), ⟨data, f, scf, 0, 0⟩, freshTarW tcf⟩ env).1
        = wrapDeferred (wrapDeferred (errSpec f c data.length)
            (if tcf then some .tgtCloseFail else none))
            (if scf then some .srcCloseFail else none)
    ∧ (SplitTar ⟨(c : Int), ⟨data, f, scf, 0, 0⟩, freshTarW tcf⟩ env).2.1.done
        = specEntries env c f 0 data
    ∧ (SplitTar ⟨(c : Int), ⟨data, f, scf, 0, 0⟩, freshTarW tcf⟩ env).2.1.closeCount = 1
    ∧ (SplitTar ⟨(c : Int), ⟨data, f, scf, 0, 0⟩, freshTarW tcf⟩ env).2.2.closeCount = 1 := by
  have hcN : ((c : Int)).toNat = c := Int.toNat_natCast c
  have hc' : 0 < ((c : Int)).toNat := by rw [hcN]; exact hc
  obtain ⟨e1, e2, e3, e4, e5, e6, e7, e8⟩ :=
    splitLoop_master env (((c : Int)).toNat) hc' (data.length + 1) 0
      (List.replicate (((c : Int)).toNat) 0) ⟨data, f, scf, 0, 0⟩ (freshTarW tcf)
      (Nat.lt_succ_self _) (List.length_replicate _ _) rfl
  rw [hcN] at e1 e2 e3 e4 e5 e6 e7 e8
  simp only [SplitTar, hcN]
  rw [tarClose_complete _ e3]
  simp only [srcClose]
  refine ⟨?_, ?_, ?_, ?_⟩
  · rw [e1, e4, e6]
    try rfl
  · rw [e2]
    try rfl
  · rw [e5]
    try rfl
  · rw [e7]
    try rfl

/-- A run whose block size resolves to zero (possible only through an
unvalidated configuration) emits nothing and still closes both handles
exactly once. -/
theorem SplitTar_zero_spec (block : Int) (hb : block.toNat = 0) (env : Env)
    (data : List Nat) (f scf tcf : Bool) :
    (SplitTar ⟨block, ⟨data, f, scf, 0, 0⟩, freshTarW tcf⟩ env).1
        = wrapDeferred (wrapDeferred none
            (if tcf then some .tgtCloseFail else none))
            (if scf then some .srcCloseFail else none)
    ∧ (SplitTar ⟨block, ⟨data, f, scf, 0, 0⟩, freshTarW tcf⟩ env).2.1.done = []
    ∧ (SplitTar ⟨block, ⟨data, f, scf, 0, 0⟩, freshTarW tcf⟩ env).2.1.closeCount = 1
    ∧ (SplitTar ⟨block, ⟨data, f, scf, 0, 0⟩, freshTarW tcf⟩ env).2.2.closeCount = 1 := by
  simp only [SplitTar, hb]
  rw [splitLoop_zero_block]
  dsimp only
  rw [tarClose_complete (freshTarW tcf) rfl]
  dsimp only [srcClose]
  exact ⟨rfl, rfl, rfl, rfl⟩

/-! ### Properties of the chunk decomposition -/

theorem specEntriesF_eq_nil_iff (env : Env) (c : Nat) :
    ∀ fuel i (data : List Nat), data.length < fuel →
      (specEntriesF env c false fuel i data = [] ↔ data = []) := by
  intro fuel
  match fuel with
  | 0 => intro i data h; exact absurd h (Nat.not_lt_zero _)
  | fuel + 1 =>
    intro i data _
    rw [specEntriesF_succ]
    rcases data with _ | ⟨x, xs⟩
    · simp
    · simp

theorem specEntriesF_nil (env : Env) (c : Nat) (f : Bool) (fuel i : Nat) :
    specEntriesF env c f fuel i [] = [] := by
  cases fuel <;> rfl

theorem specEntriesF_join (env : Env) (c : Nat) (hc : 0 < c) :
    ∀ fuel i (data : List Nat), data.length < fuel →
      ((specEntriesF env c false fuel i data).map Entry.body).flatten = data := by
  intro fuel
  induction fuel with
  | zero => intro i data h; exact absurd h (Nat.not_lt_zero _)
  | succ fuel ih =>
    intro i data h
    rw [specEntriesF_succ]
    rcases data with _ | ⟨x, xs⟩
    · rfl
    · rw [if_neg (by simp), if_neg (by simp)]
      simp only [List.map_cons, List.flatten_cons]
      rw [ih (i + 1) ((x :: xs).drop c) (by
        rw [List.length_drop]
        simp only [List.length_cons] at h ⊢
        omega)]
      exact List.take_append_drop c (x :: xs)

/-- Ceiling-division step: one chunk of a nonempty input accounts for
one entry. -/
theorem ceilDiv_step (c n : Nat) (hc : 0 < c) (hn : 0 < n) :
    (n - c + c - 1) / c + 1 = (n + c - 1) / c := by
  rcases le_or_lt c n with h | h
  · have h1 : n - c + c - 1 = n - 1 := by omega
    have h2 : n + c - 1 = (n - 1) + c := by omega
    rw [h1, h2, Nat.add_div_right _ hc]
  · have h1 : n - c + c - 1 = c - 1 := by omega
    have h2 : n + c - 1 = (n - 1) + c := by omega
    rw [h1, h2, Nat.add_div_right _ hc,
      Nat.div_eq_of_lt (by omega : c - 1 < c),
      Nat.div_eq_of_lt (by omega : n - 1 < c)]

theorem specEntriesF_length (env : Env) (c : Nat) (hc : 0 < c) :
    ∀ fuel i (data : List Nat), data.length < fuel →
      (specEntriesF env c false fuel i data).length = (data.length + c - 1) / c := by
  intro fuel
  induction fuel with
  | zero => intro i data h; exact absurd h (Nat.not_lt_zero _)
  | succ fuel ih =>
    intro i data h
    rw [specEntriesF_succ]
    rcases data with _ | ⟨x, xs⟩
    · simp only [List.isEmpty_nil, if_true, List.length_nil, Nat.zero_add]
      exact (Nat.div_eq_of_lt (by omega)).symm
    · rw [if_neg (by simp), if_neg (by simp)]
      simp only [List.length_cons]
      rw [ih (i + 1) ((x :: xs).drop c) (by
        rw [List.length_drop]
        simp only [List.length_cons] at h ⊢
        omega)]
      rw [List.length_drop]
      exact ceilDiv_step c (x :: xs).length hc (by simp)

theorem specEntriesF_dropLast_size (env : Env) (c : Nat) (hc : 0 < c) :
    ∀ fuel i (data : List Nat), data.length < fuel →
      ∀ e ∈ (specEntriesF env c false fuel i data).dropLast,
        e.header.size = (c : Int) := by
  intro fuel
  induction fuel with
  | zero => intro i data h; exact absurd h (Nat.not_lt_zero _)
  | succ fuel ih =>
    intro i data h
    rw [specEntriesF_succ]
    rcases data with _ | ⟨x, xs⟩
    · simp
    · rw [if_neg (by simp), if_neg (by simp)]
      have hlen : ((x :: xs).drop c).length < fuel := by
        rw [List.length_drop]
        simp only [List.length_cons] at h ⊢
        omega
      rcases hrec : specEntriesF env c false fuel (i + 1) ((x :: xs).drop c)
        with _ | ⟨a, rest⟩
      · simp
      · have hne : (x :: xs).drop c ≠ [] := by
          intro hdz
          rw [hdz, specEntriesF_nil] at hrec
          exact List.cons_ne_nil a rest hrec.symm
        have hcl : c < (x :: xs).length := by
          by_contra hcon
          exact hne (List.drop_eq_nil_of_le (by omega))
        intro e he
        rw [List.dropLast_cons₂] at he
        rcases List.mem_cons.mp he with rfl | he2
        · simp only
          rw [min_eq_left (by omega)]
        · rw [← hrec] at he2
          exact ih (i + 1) ((x :: xs).drop c) hlen e he2

theorem specEntriesF_getLast_size (env : Env) (c : Nat) (hc : 0 < c) :
    ∀ fuel i (data : List Nat), data.length < fuel →
      ∀ e, (specEntriesF env c false fuel i data).getLast? = some e →
        e.header.size =
          (if data.length % c = 0 then (c : Int) else ((data.length % c : Nat) : Int)) := by
  intro fuel
  induction fuel with
  | zero => intro i data h; exact absurd h (Nat.not_lt_zero _)
  | succ fuel ih =>
    intro i data h e
    rw [specEntriesF_succ]
    rcases data with _ | ⟨x, xs⟩
    · intro hlast
      exact absurd hlast (by simp)
    · rw [if_neg (by simp), if_neg (by simp)]
      have hlen : ((x :: xs).drop c).length < fuel := by
        rw [List.length_drop]
        simp only [List.length_cons] at h ⊢
        omega
      rcases hrec : specEntriesF env c false fuel (i + 1) ((x :: xs).drop c)
        with _ | ⟨a, rest⟩
      · -- this was the final entry
        have hle : (x :: xs).length ≤ c := by
          have := (specEntriesF_eq_nil_iff env c fuel (i + 1) ((x :: xs).drop c)
            hlen).mp hrec
          have := List.drop_eq_nil_iff.mp this
          omega
        intro hlast
        have he : e = { header := { createTarHeader env with
                                      name := fmt08d i,
                                      size := ((min c (x :: xs).length : Nat) : Int) },
                        body := (x :: xs).take c } := by
          simpa using hlast.symm
        subst he
        rcases Nat.lt_or_ge (x :: xs).length c with hlt | hge
        · rw [if_neg (by rw [Nat.mod_eq_of_lt hlt]; simp)]
          simp only
          rw [min_eq_right (le_of_lt hlt), Nat.mod_eq_of_lt hlt]
        · have heq : (x :: xs).length = c := by omega
          rw [heq, if_pos (Nat.mod_self c)]
          try simp [min_self]
      · rw [List.getLast?_cons_cons]
        intro hlast
        have hne : (x :: xs).drop c ≠ [] := by
          intro hdz
          rw [hdz, specEntriesF_nil] at hrec
          exact List.cons_ne_nil a rest hrec.symm
        have hcl : c < (x :: xs).length := by
          by_contra hcon
          exact hne (List.drop_eq_nil_of_le (by omega))
        have := ih (i + 1) ((x :: xs).drop c) hlen e (by rw [hrec]; exact hlast)
        rw [List.length_drop] at this
        rw [this]
        rw [Nat.mod_eq_sub_mod (by omega : c ≤ (x :: xs).length)]

theorem specEntriesF_size_eq_bodyLen (env : Env) (c : Nat) (f : Bool) :
    ∀ fuel i (data : List Nat),
      ∀ e ∈ specEntriesF env c f fuel i data, e.header.size = (e.body.length : Int) := by
  intro fuel
  induction fuel with
  | zero => intro i data e he; exact absurd he (by simp [specEntriesF])
  | succ fuel ih =>
    intro i data e
    rw [specEntriesF_succ]
    rcases data with _ | ⟨x, xs⟩
    · intro he; exact absurd he (by simp)
    · by_cases hcond : f = true ∧ (x :: xs).length < c
      · rw [if_neg (by simp), if_pos hcond]
        intro he; exact absurd he (by simp)
      · rw [if_neg (by simp), if_neg hcond]
        intro he
        rcases List.mem_cons.mp he with rfl | he2
        · simp only [List.length_take]
          try rw [min_comm]
        · exact ih (i + 1) ((x :: xs).drop c) e he2

theorem specEntriesF_fail_length (env : Env) (c : Nat) (hc : 0 < c) :
    ∀ fuel i (data : List Nat), data.length < fuel →
      (specEntriesF env c true fuel i data).length = data.length / c := by
  intro fuel
  induction fuel with
  | zero => intro i data h; exact absurd h (Nat.not_lt_zero _)
  | succ fuel ih =>
    intro i data h
    rw [specEntriesF_succ]
    rcases data with _ | ⟨x, xs⟩
    · simp
    · by_cases hlt : (x :: xs).length < c
      · rw [if_neg (by simp), if_pos ⟨rfl, hlt⟩]
        simp only [List.length_nil]
        rw [Nat.div_eq_of_lt hlt]
      · have hge : c ≤ xs.length + 1 := by
          have := Nat.le_of_not_lt hlt
          simpa using this
        rw [if_neg (by simp), if_neg (by simpa using hlt)]
        simp only [List.length_cons]
        rw [ih (i + 1) ((x :: xs).drop c) (by
          rw [List.length_drop]
          simp only [List.length_cons] at h ⊢
          omega)]
        rw [List.length_drop]
        simp only [List.length_cons]
        rw [← Nat.div_eq_sub_div hc hge]

theorem specEntriesF_fail_size (env : Env) (c : Nat) :
    ∀ fuel i (data : List Nat),
      ∀ e ∈ specEntriesF env c true fuel i data, e.header.size = (c : Int) := by
  intro fuel
  induction fuel with
  | zero => intro i data e he; exact absurd he (by simp [specEntriesF])
  | succ fuel ih =>
    intro i data e
    rw [specEntriesF_succ]
    rcases data with _ | ⟨x, xs⟩
    · intro he; exact absurd he (by simp)
    · by_cases hlt : (x :: xs).length < c
      · rw [if_neg (by simp), if_pos ⟨rfl, hlt⟩]
        intro he; exact absurd he (by simp)
      · rw [if_neg (by simp), if_neg (by simpa using hlt)]
        intro he
        rcases List.mem_cons.mp he with rfl | he2
        · simp only
          rw [min_eq_left (by omega)]
        · exact ih (i + 1) ((x :: xs).drop c) e he2

theorem specEntriesF_fail_join (env : Env) (c : Nat) (hc : 0 < c) :
    ∀ fuel i (data : List Nat), data.length < fuel →
      ((specEntriesF env c true fuel i data).map Entry.body).flatten
        = data.take (c * (data.length / c)) := by
  intro fuel
  induction fuel with
  | zero => intro i data h; exact absurd h (Nat.not_lt_zero _)
  | succ fuel ih =>
    intro i data h
    rw [specEntriesF_succ]
    rcases data with _ | ⟨x, xs⟩
    · simp
    · by_cases hlt : (x :: xs).length < c
      · rw [if_neg (by simp), if_pos ⟨rfl, hlt⟩]
        rw [Nat.div_eq_of_lt hlt]
        simp
      · rw [if_neg (by simp), if_neg (by simpa using hlt)]
        simp only [List.map_cons, List.flatten_cons]
        rw [ih (i + 1) ((x :: xs).drop c) (by
          rw [List.length_drop]
          simp only [List.length_cons] at h ⊢
          omega)]
        rw [List.length_drop]
        rw [← List.take_add]
        rw [Nat.div_eq_sub_div hc (Nat.le_of_not_lt hlt), Nat.mul_succ]
        congr 1
        omega

/-- Every entry the loop can produce is the run's header template with
only its name and size overridden. -/
theorem specEntriesF_header (env : Env) (c : Nat) (f : Bool) :
    ∀ fuel i (data : List Nat),
      ∀ e ∈ specEntriesF env c f fuel i data,
        e.header = { createTarHeader env with
          name := e.header.name, size := e.header.size } := by
  intro fuel
  induction fuel with
  | zero => intro i data e he; exact absurd he (by simp [specEntriesF])
  | succ fuel ih =>
    intro i data e
    rw [specEntriesF_succ]
    rcases data with _ | ⟨x, xs⟩
    · intro he; exact absurd he (by simp)
    · by_cases hcond : f = true ∧ (x :: xs).length < c
      · rw [if_neg (by simp), if_pos hcond]
        intro he; exact absurd he (by simp)
      · rw [if_neg (by simp), if_neg hcond]
        intro he
        rcases List.mem_cons.mp he with rfl | he2
        · rfl
        · exact ih (i + 1) ((x :: xs).drop c) e he2

/-! ## Claim theorems for the chunker/writer loop -/

/-- Concrete fixtures used by the witnesses. -/
def envEx : Env :=
  { uid := 1000, gid := 1000, uname := "user", gname := "group", time := 1700000000 }

/-- A ten-byte source (chunk size 4 gives entries of sizes 4, 4, 2). -/
def dataTen : List Nat := [1, 2, 3, 4, 5, 6, 7, 8, 9, 10]

/-- A six-byte source (chunk size 4 leaves a two-byte partial chunk). -/
def dataSix : List Nat := [1, 2, 3, 4, 5, 6]

/-- A small source handle fixture. -/
def srcEx : Src :=
  { data := [1, 2], failAfterData := false, closeFails := false,
    readCount := 0, closeCount := 0 }

/-- C1: round-trip law — for every source byte stream and every positive
chunk size, concatenating the bodies of all emitted archive entries in
emitted order reproduces the original source bytes exactly. -/
theorem C1_roundtrip (c : Nat) (env : Env) (data : List Nat) (hc : 0 < c) :
    (((runClean c env data).2.1.done).map Entry.body).flatten = data := by
  have hs := SplitTar_spec c env data false false false hc
  unfold runClean
  rw [hs.2.1]
  exact specEntriesF_join env c hc (data.length + 1) 0 data (Nat.lt_succ_self _)

theorem C1_roundtrip_witness :
    0 < 4 ∧ (((runClean 4 envEx dataTen).2.1.done).map Entry.body).flatten = dataTen :=
  ⟨by decide, C1_roundtrip 4 envEx dataTen (by decide)⟩

/-- C2: chunk count and sizes — splitting an `n`-byte source with chunk
size `c > 0` yields `⌈n / c⌉` entries (zero when `n = 0`), every entry
except possibly the last of size exactly `c`, and the last of size
`n % c` (or `c` when `n % c = 0`). -/
theorem C2_chunk_count_and_sizes (c : Nat) (env : Env) (data : List Nat) (hc : 0 < c) :
    ((runClean c env data).2.1.done).length = (data.length + c - 1) / c
    ∧ (∀ e ∈ ((runClean c env data).2.1.done).dropLast, e.header.size = (c : Int))
    ∧ (∀ e, ((runClean c env data).2.1.done).getLast? = some e →
        e.header.size =
          (if data.length % c = 0 then (c : Int) else ((data.length % c : Nat) : Int))) := by
  have hs := SplitTar_spec c env data false false false hc
  unfold runClean
  rw [hs.2.1]
  exact ⟨specEntriesF_length env c hc (data.length + 1) 0 data (Nat.lt_succ_self _),
    specEntriesF_dropLast_size env c hc (data.length + 1) 0 data (Nat.lt_succ_self _),
    specEntriesF_getLast_size env c hc (data.length + 1) 0 data (Nat.lt_succ_self _)⟩

theorem C2_chunk_count_and_sizes_witness :
    0 < 4 ∧ ((runClean 4 envEx dataTen).2.1.done).length = 3 :=
  ⟨by decide, (C2_chunk_count_and_sizes 4 envEx dataTen (by decide)).1⟩

/-- C6: a source read error other than end-of-stream, hit while bytes of
the current chunk are already buffered, aborts the run with the error
wrapped as a source-read failure, and no entry — neither header nor
body — is written for the partially filled chunk: the archive holds
exactly the preceding full chunks. -/
theorem C6_midread_error_aborts (c : Nat) (env : Env) (data : List Nat)
    (hc : 0 < c) (_hrem : data.length % c ≠ 0) :
    (runSrcFail c env data).1 = some (.sourceRead .srcFail)
    ∧ ((runSrcFail c env data).2.1.done).length = data.length / c
    ∧ (∀ e ∈ (runSrcFail c env data).2.1.done, e.header.size = (c : Int))
    ∧ (((runSrcFail c env data).2.1.done).map Entry.body).flatten
        = data.take (c * (data.length / c)) := by
  have hs := SplitTar_spec c env data true false false hc
  unfold runSrcFail
  refine ⟨?_, ?_, ?_, ?_⟩
  · rw [hs.1]
    rfl
  · rw [hs.2.1]
    exact specEntriesF_fail_length env c hc (data.length + 1) 0 data (Nat.lt_succ_self _)
  · rw [hs.2.1]
    exact specEntriesF_fail_size env c (data.length + 1) 0 data
  · rw [hs.2.1]
    exact specEntriesF_fail_join env c hc (data.length + 1) 0 data (Nat.lt_succ_self _)

theorem C6_midread_error_aborts_witness :
    0 < 4 ∧ dataSix.length % 4 ≠ 0
      ∧ (runSrcFail 4 envEx dataSix).1 = some (.sourceRead .srcFail) :=
  ⟨by decide, by decide,
    (C6_midread_error_aborts 4 envEx dataSix (by decide) (by decide)).1⟩

/-- C7: in every flushing step the emitted entry's header size equals the
number of body bytes the entry actually receives — no more, no fewer —
including the short final chunk. -/
theorem C7_flush_exact_bytes (c : Nat) (env : Env) (data : List Nat) (hc : 0 < c) :
    ∀ e ∈ (runClean c env data).2.1.done, e.header.size = (e.body.length : Int) := by
  have hs := SplitTar_spec c env data false false false hc
  unfold runClean
  rw [hs.2.1]
  exact specEntriesF_size_eq_bodyLen env c false (data.length + 1) 0 data

theorem C7_flush_exact_bytes_witness :
    ((runClean 4 envEx dataTen).2.1.done.getD 2 default).header.size
      = (((runClean 4 envEx dataTen).2.1.done.getD 2 default).body.length : Int) :=
  C7_flush_exact_bytes 4 envEx dataTen (by decide) _ (by decide)

/-- The error the run body (the loop, before the deferred closes)
returns: none for a zero-capacity buffer (the first fill yields zero
bytes and the loop stops before ever reading), otherwise `errSpec`. -/
def bodyErrSpec (f : Bool) (c n : Nat) : Option Err :=
  if c = 0 then none else errSpec f c n

theorem wrapDeferred_some_left (e : Err) (s : Option Err) :
    wrapDeferred (some e) s ≠ none := by
  cases s <;> simp [wrapDeferred]

theorem wrapDeferred_some_right (x : Option Err) (e : Err) :
    wrapDeferred x (some e) ≠ none := by
  cases x <;> simp [wrapDeferred]

/-- C8: on every run — any block size, any combination of body and close
failures — the target archive writer and the source handle are each
closed exactly once, and the returned error is exactly the body error
with the target-close error composed in and then the source-close error
composed in (`wrapDeferred` keeps a lone close error, and composes when
both sides fail); in particular any failing close makes the run return
an error rather than dropping it. -/
theorem C8_closes_once_and_composes (block : Int) (env : Env) (data : List Nat)
    (f scf tcf : Bool) :
    (SplitTar { block := block, source := ⟨data, f, scf, 0, 0⟩,
                target := freshTarW tcf } env).2.1.closeCount = 1
    ∧ (SplitTar { block := block, source := ⟨data, f, scf, 0, 0⟩,
                  target := freshTarW tcf } env).2.2.closeCount = 1
    ∧ (SplitTar { block := block, source := ⟨data, f, scf, 0, 0⟩,
                  target := freshTarW tcf } env).1
        = wrapDeferred (wrapDeferred (bodyErrSpec f block.toNat data.length)
            (if tcf then some .tgtCloseFail else none))
            (if scf then some .srcCloseFail else none)
    ∧ (tcf = true →
        (SplitTar { block := block, source := ⟨data, f, scf, 0, 0⟩,
                    target := freshTarW tcf } env).1 ≠ none)
    ∧ (scf = true →
        (SplitTar { block := block, source := ⟨data, f, scf, 0, 0⟩,
                    target := freshTarW tcf } env).1 ≠ none) := by
  have base : (SplitTar { block := block, source := ⟨data, f, scf, 0, 0⟩,
                          target := freshTarW tcf } env).2.1.closeCount = 1
      ∧ (SplitTar { block := block, source := ⟨data, f, scf, 0, 0⟩,
                    target := freshTarW tcf } env).2.2.closeCount = 1
      ∧ (SplitTar { block := block, source := ⟨data, f, scf, 0, 0⟩,
                    target := freshTarW tcf } env).1
          = wrapDeferred (wrapDeferred (bodyErrSpec f block.toNat data.length)
              (if tcf then some .tgtCloseFail else none))
              (if scf then some .srcCloseFail else none) := by
    rcases Nat.eq_zero_or_pos block.toNat with hz | hp
    · have hzs := SplitTar_zero_spec block hz env data f scf tcf
      refine ⟨hzs.2.2.1, hzs.2.2.2, ?_⟩
      rw [hzs.1, hz]
      rfl
    · have hnn : ((block.toNat : Nat) : Int) = block := Int.toNat_of_nonneg (by omega)
      have hs := SplitTar_spec block.toNat env data f scf tcf hp
      rw [hnn] at hs
      refine ⟨hs.2.2.1, hs.2.2.2, ?_⟩
      rw [hs.1]
      simp only [bodyErrSpec, if_neg (by omega : ¬(block.toNat = 0))]
  refine ⟨base.1, base.2.1, base.2.2, ?_, ?_⟩
  · intro htc
    rw [base.2.2, htc]
    rcases bodyErrSpec f block.toNat data.length with _ | e
    · exact wrapDeferred_some_left .tgtCloseFail _
    · exact wrapDeferred_some_left (.composed e .tgtCloseFail) _
  · intro hsc
    rw [base.2.2, hsc]
    exact wrapDeferred_some_right _ .srcCloseFail

theorem C8_closes_once_and_composes_witness :
    ((SplitTar { block := 4, source := ⟨dataSix, true, true, 0, 0⟩,
                 target := freshTarW true } envEx).1
      = some (.composed (.composed (.sourceRead .srcFail) .tgtCloseFail)
          .srcCloseFail))
    ∧ (SplitTar { block := 4, source := ⟨dataTen, false, true, 0, 0⟩,
                  target := freshTarW false } envEx).1 ≠ none := by
  constructor
  · rw [(C8_closes_once_and_composes 4 envEx dataSix true true true).2.2.1]
    rfl
  · exact (C8_closes_once_and_composes 4 envEx dataTen false true false).2.2.2.2 rfl

/-- C10: header-template invariant — across all entries of one run, every
header field other than name and size (entry kind, mode bits, uid/gid,
user/group names, the three timestamps, device numbers, link name,
extended attributes, format) is identical, because the template is built
once before the loop and only name and size are overwritten per chunk. -/
theorem C10_header_template_invariant (block : Int) (env : Env) (data : List Nat)
    (f scf tcf : Bool) :
    ∀ e1 ∈ (SplitTar { block := block, source := ⟨data, f, scf, 0, 0⟩,
                       target := freshTarW tcf } env).2.1.done,
    ∀ e2 ∈ (SplitTar { block := block, source := ⟨data, f, scf, 0, 0⟩,
                       target := freshTarW tcf } env).2.1.done,
      e1.header.typeflag = e2.header.typeflag
      ∧ e1.header.mode = e2.header.mode
      ∧ e1.header.uid = e2.header.uid
      ∧ e1.header.gid = e2.header.gid
      ∧ e1.header.uname = e2.header.uname
      ∧ e1.header.gname = e2.header.gname
      ∧ e1.header.modTime = e2.header.modTime
      ∧ e1.header.accessTime = e2.header.accessTime
      ∧ e1.header.changeTime = e2.header.changeTime
      ∧ e1.header.devmajor = e2.header.devmajor
      ∧ e1.header.devminor = e2.header.devminor
      ∧ e1.header.linkname = e2.header.linkname
      ∧ e1.header.xattrs = e2.header.xattrs
      ∧ e1.header.format = e2.header.format := by
  have key : ∀ e ∈ (SplitTar { block := block, source := ⟨data, f, scf, 0, 0⟩,
                               target := freshTarW tcf } env).2.1.done,
      e.header = { createTarHeader env with
                     name := e.header.name, size := e.header.size } := by
    rcases Nat.eq_zero_or_pos block.toNat with hz | hp
    · rw [(SplitTar_zero_spec block hz env data f scf tcf).2.1]
      intro e he
      exact absurd he (by simp)
    · have hnn : ((block.toNat : Nat) : Int) = block := Int.toNat_of_nonneg (by omega)
      have hs := SplitTar_spec block.toNat env data f scf tcf hp
      rw [hnn] at hs
      rw [hs.2.1]
      exact specEntriesF_header env block.toNat f (data.length + 1) 0 data
  intro e1 h1 e2 h2
  have k1 := key e1 h1
  have k2 := key e2 h2
  exact ⟨by rw [k1, k2], by rw [k1, k2], by rw [k1, k2], by rw [k1, k2],
    by rw [k1, k2], by rw [k1, k2], by rw [k1, k2], by rw [k1, k2],
    by rw [k1, k2], by rw [k1, k2], by rw [k1, k2], by rw [k1, k2],
    by rw [k1, k2], by rw [k1, k2]⟩

theorem C10_header_template_invariant_witness :
    ((SplitTar { block := 4, source := ⟨dataTen, false, false, 0, 0⟩,
                 target := freshTarW false } envEx).2.1.done.getD 0 default).header.uid
      = ((SplitTar { block := 4, source := ⟨dataTen, false, false, 0, 0⟩,
                     target := freshTarW false } envEx).2.1.done.getD 1 default).header.uid :=
  (C10_header_template_invariant 4 envEx dataTen false false false
    _ (by decide) _ (by decide)).2.2.1

/-- C5 amended: every chunk size ≤ 0 given to the library's `BlockSize`
option makes configuration fail before any I/O — the source handle is
returned untouched (never read, never closed) and the target writer is
still fresh, `SplitTar` never having run; the standalone front end's
parser, by contrast, accepts "0" and returns size 0 without error. -/
theorem C5_blocksize_guard (size : Int) (hsz : size ≤ 0) (src : Src) (tcf : Bool)
    (env : Env) :
    splitTarCLI size src tcf env = (some .blockSizeNonPositive, freshTarW tcf, src)
    ∧ getSize ("0".toList) = .ok 0 := by
  refine ⟨?_, rfl⟩
  unfold splitTarCLI
  have h1 : NewConfig [BlockSize size, Source src, TargetWriter (freshTarW tcf)]
      = .error .blockSizeNonPositive := by
    simp only [NewConfig, BlockSize, List.foldlM]
    rw [if_pos hsz]
    rfl
  rw [h1]

theorem C5_blocksize_guard_witness :
    (0 : Int) ≤ 0
    ∧ splitTarCLI 0 srcEx false envEx
        = (some .blockSizeNonPositive, freshTarW false, srcEx) :=
  ⟨by decide, (C5_blocksize_guard 0 (by decide) srcEx false envEx).1⟩

/-- Witness for C4 at a concrete input: the empty string is exactly the
`EmptyInput` case. -/
theorem C4_parser_failure_conditions_witness :
    getSize [] = .error .emptySize :=
  (C4_parser_failure_conditions []).1.mpr rfl

end Splittar
